import Mathlib

/-!
Verification of the image-labeler pipeline (src/main.rs): EXIF GPS/date
decoding, geocode response interpretation, filename sanitization and
assembly, and the sequence-counter behaviour of the orchestrator loop.

Modelling conventions:
* Rust `f64` arithmetic on EXIF rationals is modelled in exact rationals
  (`ℚ`); the claims settled here concern the algebraic formula and signs,
  which coincide with IEEE-754 double behaviour on valid (nonzero
  denominator) inputs.
* Rust `String` is modelled by Lean `String`; character classes
  (`is_alphanumeric`, `is_whitespace`, `is_digit(10)`, `to_uppercase`)
  are modelled by `Char.isAlphanum`, `Char.isWhitespace`, `Char.isDigit`
  and `Char.toUpper`, which agree with Rust on the ASCII range.
* Fallible Rust code (`Option` / early `?` returns) is modelled with
  `Option`.
-/

namespace ImageLabeler

/-- An unsigned EXIF rational, as in the exif crate's `Rational`
(`num`, `denom` both unsigned). -/
structure URational where
  num : Nat
  den : Nat
deriving DecidableEq, Repr

/-- Mirrors `Rational::to_f64`: `num as f64 / denom as f64`, modelled in ℚ. -/
def URational.toRat (r : URational) : ℚ := (r.num : ℚ) / (r.den : ℚ)

/-- The slice of `exif::Value` relevant to `to_decimal`: either a
`Rational` vector or some other variant. -/
inductive ExifValue where
  | rational : List URational → ExifValue
  | other : ExifValue
deriving DecidableEq

/-- Mirrors `to_decimal` (main.rs 116–126): requires a `Rational` value of
length ≥ 3 and returns `degrees + minutes/60 + seconds/3600`; `None`
otherwise. -/
def toDecimal : ExifValue → Option ℚ
  | .rational (d :: m :: s :: _) => some (d.toRat + m.toRat / 60 + s.toRat / 3600)
  | .rational _ => none
  | .other => none

/-- Mirrors main.rs line 93: negate the latitude when the latitude
reference's display text contains the character 'S'. -/
def applyLatRef (ref : String) (lat : ℚ) : ℚ :=
  if ref.data.contains 'S' then -lat else lat

/-- Mirrors main.rs line 94: negate the longitude when the longitude
reference's display text contains the character 'W'. -/
def applyLonRef (ref : String) (lon : ℚ) : ℚ :=
  if ref.data.contains 'W' then -lon else lon

/-- The EXIF fields `extract_metadata` reads, each optional as returned by
`get_field`; reference and date fields are carried as their
`display_value().to_string()` text. -/
structure ExifData where
  gpsLatitude : Option ExifValue
  gpsLatitudeRef : Option String
  gpsLongitude : Option ExifValue
  gpsLongitudeRef : Option String
  dateTimeOriginal : Option String
  dateTime : Option String
deriving DecidableEq

/-- Mirrors the date part of `extract_metadata` (main.rs 97–113):
`DateTimeOriginal` falling back to `DateTime` (the `or_else` + `?`),
then the digits of the text, first 8 kept, accepted only when exactly
8 digits were found. -/
def normalizeDate (dto dt : Option String) : Option String :=
  match dto.or dt with
  | none => none
  | some dateStr =>
    let yyyymmdd := (dateStr.data.filter fun c => c.isDigit).take 8
    if yyyymmdd.length = 8 then some (String.mk yyyymmdd) else none

/-- Mirrors `extract_metadata` (main.rs 79–114): all four GPS fields are
required (`?`), both values must decode via `to_decimal`, the hemisphere
references flip signs, and the date must normalize; any failure yields
`None`. -/
def extractMetadata (e : ExifData) : Option (ℚ × ℚ × String) :=
  match e.gpsLatitude, e.gpsLatitudeRef, e.gpsLongitude, e.gpsLongitudeRef with
  | some lat, some latRef, some lon, some lonRef =>
    match toDecimal lat, toDecimal lon with
    | some latitude, some longitude =>
      let latFinal := applyLatRef latRef latitude
      let lonFinal := applyLonRef lonRef longitude
      match normalizeDate e.dateTimeOriginal e.dateTime with
      | some date => some (latFinal, lonFinal, date)
      | none => none
    | _, _ => none
  | _, _, _, _ => none

/-- The geocoder's `Address` (main.rs 16–25): every field optional. -/
structure Address where
  road : Option String
  city : Option String
  town : Option String
  village : Option String
  state : Option String
  country : Option String
  country_code : Option String
deriving DecidableEq

/-- The geocoder's response (main.rs 27–31). -/
structure GeocodeResponse where
  display_name : String
  address : Address
deriving DecidableEq

/-- Rust `str::to_uppercase`, modelled characterwise with `Char.toUpper`
(identical on the ASCII range). -/
def toUpperStr (s : String) : String := String.mk (s.data.map Char.toUpper)

/-- Mirrors main.rs line 154:
`address.country_code.as_deref().unwrap_or("unknown").to_uppercase()` —
note that the default token is also passed through the uppercasing. -/
def countryCodeSlot (a : Address) : String :=
  toUpperStr (a.country_code.getD "unknown")

/-- Mirrors `Vec::join(", ")`. -/
def joinComma : List String → String
  | [] => ""
  | [x] => x
  | x :: y :: xs => x ++ ", " ++ joinComma (y :: xs)

/-- Mirrors the location derivation of `rename_file` (main.rs 148–174):
build `location_parts` from place (town or city or village) then road;
if still empty and a country exists use the country; if the parts are
empty fall back to `display_name`, else join with `", "`. -/
def locationOf (r : GeocodeResponse) : String :=
  let road := r.address.road
  let town_or_city := (r.address.town.or r.address.city).or r.address.village
  let country := r.address.country
  let parts1 : List String :=
    match town_or_city with
    | some place => [place]
    | none => []
  let parts2 : List String :=
    match road with
    | some rd => parts1 ++ [rd]
    | none => parts1
  let parts3 : List String :=
    if parts2.isEmpty then
      match country with
      | some c => [c]
      | none => []
    else parts2
  if parts3.isEmpty then r.display_name else joinComma parts3

/-- Mirrors the character map of main.rs line 178: keep alphanumerics,
spaces and commas, replace everything else with an underscore. -/
def sanitizeMap (c : Char) : Char :=
  if c.isAlphanum || c = ' ' || c = ',' then c else '_'

/-- Mirrors Rust `str::split_whitespace` on a character list, scanning
characterwise with the current (reversed) partial word as accumulator:
maximal runs of non-whitespace characters, in order, with empty tokens
(and hence leading/trailing whitespace) discarded. -/
def splitWhitespaceAux : List Char → List Char → List (List Char)
  | [], acc => if acc.isEmpty then [] else [acc.reverse]
  | c :: cs, acc =>
    if c.isWhitespace then
      if acc.isEmpty then splitWhitespaceAux cs []
      else acc.reverse :: splitWhitespaceAux cs []
    else splitWhitespaceAux cs (c :: acc)

/-- Rust `str::split_whitespace`: scan with an empty starting word. -/
def splitWhitespace (l : List Char) : List (List Char) :=
  splitWhitespaceAux l []

/-- Characterization of `split_whitespace` by `takeWhile`/`dropWhile`
(equivalent to `splitWhitespace`; the formulation used in proofs). -/
def splitWhitespaceAlt : List Char → List (List Char)
  | [] => []
  | c :: cs =>
    if c.isWhitespace then splitWhitespaceAlt cs
    else (c :: cs.takeWhile fun x => !x.isWhitespace) ::
      splitWhitespaceAlt (cs.dropWhile fun x => !x.isWhitespace)
termination_by l => l.length
decreasing_by
  · simp
  · exact Nat.lt_succ_of_le (List.dropWhile_sublist _).length_le

/-- Mirrors `Vec::join(" ")` on the word list. -/
def joinSpace : List (List Char) → List Char
  | [] => []
  | [w] => w
  | w :: v :: ws => w ++ ' ' :: joinSpace (v :: ws)

/-- Mirrors the sanitization chain of main.rs 177–182: map characters,
then `split_whitespace` and re-join with single spaces. -/
def sanitize (l : List Char) : List Char :=
  joinSpace (splitWhitespace (l.map sanitizeMap))

/-- String-level wrapper of `sanitize` (the `safe_location` value). -/
def sanitizeStr (s : String) : String := String.mk (sanitize s.data)

/-- Mirrors main.rs line 184:
`format!("{}_{}_{}, {}.{}", date, sequence, country_code, safe_location, extension)`. -/
def newName (date : String) (sequence : Nat) (r : GeocodeResponse)
    (extension : String) : String :=
  date ++ "_" ++ toString sequence ++ "_" ++ countryCodeSlot r.address
    ++ ", " ++ sanitizeStr (locationOf r) ++ "." ++ extension

/-- Per-file outcome of the orchestrator loop in `main` (main.rs 46–69):
not a JPEG, metadata missing, lookup error, rename error (which
propagates out of `main` via `?`), or a completed rename. -/
inductive FileOutcome where
  | notJpeg
  | noMetadata
  | lookupErr
  | renameErr
  | renamed
deriving DecidableEq, Repr

/-- Mirrors the sequence-counter behaviour of the loop in `main`
(main.rs 44–69): each completed rename uses the current counter and then
increments it; skipped files leave it untouched; a rename error aborts
the remaining batch (the `?` on `rename_file`). The result records, per
processed file, the sequence number it received (`none` when it was not
renamed). -/
def assignedSequences : List FileOutcome → Nat → List (Option Nat)
  | [], _ => []
  | f :: fs, sequence =>
    match f with
    | .renamed => some sequence :: assignedSequences fs (sequence + 1)
    | .renameErr => [none]
    | _ => none :: assignedSequences fs sequence

/-- The whole run: `let mut sequence = 1` (main.rs 44). -/
def mainSequences (fs : List FileOutcome) : List (Option Nat) :=
  assignedSequences fs 1

/-! Specification-side definitions, written from the spec's (or an amended
claim's) wording, to be compared with the code-side definitions above. -/

/-- Spec wording (§4.3): the place name is town if present, else city,
else village; state is never chosen. -/
def placeNameSpec (a : Address) : Option String :=
  match a.town with
  | some t => some t
  | none =>
    match a.city with
    | some c => some c
    | none => a.village

/-- Spec wording (§4.3): place name and road joined with `", "`; country
alone when neither exists; `display_name` verbatim as the last resort. -/
def locationSpec (r : GeocodeResponse) : String :=
  match placeNameSpec r.address, r.address.road with
  | some place, some rd => place ++ ", " ++ rd
  | some place, none => place
  | none, some rd => rd
  | none, none =>
    match r.address.country with
    | some c => c
    | none => r.display_name

/-- Amended-claim wording for the country-code slot: the `country_code`
uppercased when present, the token `"UNKNOWN"` when absent. -/
def countryCodeSpec (a : Address) : String :=
  match a.country_code with
  | some cc => toUpperStr cc
  | none => "UNKNOWN"

/-- Spec wording (§4.4): every maximal run of whitespace collapsed to one
single space (leading and trailing runs included). -/
def collapseRuns : List Char → List Char
  | [] => []
  | [c] => if c.isWhitespace then [' '] else [c]
  | c1 :: c2 :: cs =>
    if c1.isWhitespace && c2.isWhitespace then collapseRuns (c2 :: cs)
    else (if c1.isWhitespace then ' ' else c1) :: collapseRuns (c2 :: cs)

/-- Characterization of run collapsing by `dropWhile` (equivalent to
`collapseRuns`; the formulation used in proofs). -/
def collapseRunsAlt : List Char → List Char
  | [] => []
  | c :: cs =>
    if c.isWhitespace then ' ' :: collapseRunsAlt (cs.dropWhile fun x => x.isWhitespace)
    else c :: collapseRunsAlt cs
termination_by l => l.length
decreasing_by
  · exact Nat.lt_succ_of_le (List.dropWhile_sublist _).length_le
  · simp

/-- Removal of a leading whitespace run. -/
def trimStart (l : List Char) : List Char := l.dropWhile fun c => c.isWhitespace

/-- Removal of a trailing whitespace run. -/
def trimEnd (l : List Char) : List Char :=
  (l.reverse.dropWhile fun c => c.isWhitespace).reverse

/-- Removal of both the leading and the trailing whitespace run. -/
def trimWs (l : List Char) : List Char := trimEnd (trimStart l)

/-- The sanitizer exactly as claim C8 words it: replace disallowed
characters, then collapse every whitespace run to a single space. -/
def sanitizeSpecLiteral (l : List Char) : List Char :=
  collapseRuns (l.map sanitizeMap)

/-- The sanitizer as the amended claim words it: replace disallowed
characters, collapse interior whitespace runs to single spaces, and
delete the leading and trailing whitespace runs. -/
def sanitizeSpecAmended (l : List Char) : List Char :=
  trimWs (collapseRuns (l.map sanitizeMap))

/-- The composed filename as the amended claim C1 words it: date key,
sequence number, uppercased country code and sanitized location, the
first three slots separated by single underscores, the location preceded
by a comma and a space, then a dot and the original extension. -/
def newNameSpec (date : String) (sequence : Nat) (r : GeocodeResponse)
    (extension : String) : String :=
  date ++ "_" ++ toString sequence ++ "_" ++ countryCodeSpec r.address
    ++ ", " ++ String.mk (sanitizeSpecAmended (locationSpec r).data)
    ++ "." ++ extension

/-! Helper lemmas. -/

theorem dropWhile_head?_false {α : Type} (p : α → Bool) :
    ∀ (l : List α) (a : α), (l.dropWhile p).head? = some a → p a = false := by
  intro l
  induction l with
  | nil => simp [List.dropWhile]
  | cons b l ih =>
    intro a
    by_cases h : p b
    · rw [List.dropWhile_cons_of_pos h]
      exact ih a
    · rw [List.dropWhile_cons_of_neg h]
      intro ha
      obtain rfl : b = a := by simpa using ha
      simpa using h

theorem dropWhile_eq_self_of_false {α : Type} (p : α → Bool) (l : List α)
    (h : ∀ a ∈ l, p a = false) : l.dropWhile p = l := by
  cases l with
  | nil => rfl
  | cons b l =>
    exact List.dropWhile_cons_of_neg (by simp [h b (List.mem_cons_self b l)])

theorem countryCodeSlot_eq_spec (a : Address) :
    countryCodeSlot a = countryCodeSpec a := by
  cases h : a.country_code with
  | none => simp [countryCodeSlot, countryCodeSpec, h]; decide
  | some cc => simp [countryCodeSlot, countryCodeSpec, h]

theorem locationOf_eq_spec (r : GeocodeResponse) :
    locationOf r = locationSpec r := by
  obtain ⟨dn, road, city, town, village, st, country, cc⟩ := r
  cases town <;> cases city <;> cases village <;> cases road <;> cases country <;>
    simp [locationOf, locationSpec, placeNameSpec, joinComma]

theorem trimEnd_nil : trimEnd [] = [] := rfl

theorem trimEnd_append_nonws (w x : List Char)
    (hw : ∀ c ∈ w, c.isWhitespace = false) :
    trimEnd (w ++ x) = w ++ trimEnd x := by
  unfold trimEnd
  rw [List.reverse_append, List.dropWhile_append]
  by_cases h : (x.reverse.dropWhile fun c => c.isWhitespace).isEmpty
  · rw [if_pos h]
    rw [List.isEmpty_iff] at h
    rw [h, List.reverse_nil, List.append_nil]
    rw [dropWhile_eq_self_of_false _ _ (by intro a ha; exact hw a (List.mem_reverse.mp ha))]
    exact List.reverse_reverse w
  · rw [if_neg h]
    rw [List.reverse_append, List.reverse_reverse]

theorem trimEnd_cons_space (y : List Char) (hy : trimEnd y ≠ []) :
    trimEnd (' ' :: y) = ' ' :: trimEnd y := by
  unfold trimEnd at hy ⊢
  rw [List.reverse_cons, List.dropWhile_append]
  have h : ¬ (y.reverse.dropWhile fun c => c.isWhitespace).isEmpty := by
    intro h
    rw [List.isEmpty_iff] at h
    exact hy (by rw [h, List.reverse_nil])
  rw [if_neg h, List.reverse_append]
  rfl

theorem trimEnd_cons_nonws_ne (b : Char) (z : List Char)
    (hb : b.isWhitespace = false) : trimEnd (b :: z) ≠ [] := by
  unfold trimEnd
  rw [List.reverse_cons, List.dropWhile_append]
  by_cases h : (z.reverse.dropWhile fun c => c.isWhitespace).isEmpty
  · rw [if_pos h]
    simp [List.dropWhile, hb]
  · rw [if_neg h]
    simp

theorem collapseRunsAlt_append_nonws (w y : List Char)
    (hw : ∀ c ∈ w, c.isWhitespace = false) :
    collapseRunsAlt (w ++ y) = w ++ collapseRunsAlt y := by
  induction w with
  | nil => rfl
  | cons a w ih =>
    have ha : a.isWhitespace = false := hw a (List.mem_cons_self a w)
    rw [List.cons_append, collapseRunsAlt, if_neg (by simp [ha])]
    rw [ih fun c hc => hw c (List.mem_cons_of_mem a hc)]
    rfl

theorem collapseRunsAlt_nonws_head (l : List Char)
    (hl : ∀ c, l.head? = some c → c.isWhitespace = false) :
    trimStart (collapseRunsAlt l) = collapseRunsAlt l := by
  cases l with
  | nil => simp [collapseRunsAlt, trimStart]
  | cons c cs =>
    have hc : c.isWhitespace = false := hl c rfl
    rw [collapseRunsAlt, if_neg (by simp [hc])]
    exact List.dropWhile_cons_of_neg (by simp [hc])

theorem trimStart_collapseRunsAlt (l : List Char) :
    trimStart (collapseRunsAlt l) = collapseRunsAlt (trimStart l) := by
  cases l with
  | nil => simp [collapseRunsAlt, trimStart]
  | cons c cs =>
    by_cases hc : c.isWhitespace
    · rw [collapseRunsAlt, if_pos hc]
      show trimStart (' ' :: _) = _
      unfold trimStart
      rw [List.dropWhile_cons_of_pos (by decide), List.dropWhile_cons_of_pos hc]
      show trimStart _ = _
      exact collapseRunsAlt_nonws_head _ (dropWhile_head?_false _ cs)
    · have hc' : c.isWhitespace = false := by simpa using hc
      rw [collapseRunsAlt, if_neg (by simp [hc'])]
      unfold trimStart
      rw [List.dropWhile_cons_of_neg (by simp [hc']),
        List.dropWhile_cons_of_neg (by simp [hc'])]
      rw [collapseRunsAlt, if_neg (by simp [hc'])]

theorem splitWhitespaceAlt_dropWhile (l : List Char) :
    splitWhitespaceAlt (l.dropWhile fun c => c.isWhitespace) = splitWhitespaceAlt l := by
  induction l with
  | nil => rfl
  | cons c cs ih =>
    by_cases hc : c.isWhitespace
    · rw [List.dropWhile_cons_of_pos hc, splitWhitespaceAlt, if_pos hc]
      exact ih
    · rw [List.dropWhile_cons_of_neg hc]

theorem joinSpace_words_eq_trimEnd_collapse :
    ∀ (n : Nat) (l : List Char), l.length ≤ n →
      (∀ c, l.head? = some c → c.isWhitespace = false) →
      joinSpace (splitWhitespaceAlt l) = trimEnd (collapseRunsAlt l) := by
  intro n
  induction n with
  | zero =>
    intro l hl _
    obtain rfl : l = [] := List.eq_nil_of_length_eq_zero (Nat.le_zero.mp hl)
    simp [splitWhitespaceAlt, collapseRunsAlt, joinSpace, trimEnd]
  | succ n ih =>
    intro l hl hhead
    cases l with
    | nil => simp [splitWhitespaceAlt, collapseRunsAlt, joinSpace, trimEnd]
    | cons c cs =>
      have hc : c.isWhitespace = false := hhead c rfl
      set w : List Char := c :: cs.takeWhile (fun x => !x.isWhitespace) with hw
      set d : List Char := cs.dropWhile (fun x => !x.isWhitespace) with hd
      have hwd : c :: cs = w ++ d := by
        rw [hw, hd, List.cons_append, List.takeWhile_append_dropWhile]
      have hwnws : ∀ x ∈ w, x.isWhitespace = false := by
        intro x hx
        rcases List.mem_cons.mp hx with rfl | hx
        · exact hc
        · simpa using List.mem_takeWhile_imp hx
      have hsplit : splitWhitespaceAlt (c :: cs) = w :: splitWhitespaceAlt d := by
        rw [splitWhitespaceAlt, if_neg (by simp [hc])]
      have hcollapse : trimEnd (collapseRunsAlt (c :: cs)) = w ++ trimEnd (collapseRunsAlt d) := by
        rw [hwd, collapseRunsAlt_append_nonws w d hwnws, trimEnd_append_nonws w _ hwnws]
      rw [hsplit, hcollapse]
      cases hdc : d with
      | nil => simp [splitWhitespaceAlt, collapseRunsAlt, joinSpace, trimEnd]
      | cons a ds =>
        have ha : a.isWhitespace = true := by
          have := dropWhile_head?_false (fun x => !x.isWhitespace) cs a
            (by rw [← hd, hdc]; rfl)
          simpa using this
        have hdlen : d.length ≤ cs.length := (List.dropWhile_sublist _).length_le
        have hcsn : cs.length ≤ n := by
          have : (c :: cs).length ≤ n + 1 := hl
          simpa [List.length_cons] using this
        set e : List Char := ds.dropWhile (fun x => x.isWhitespace) with he
        have helen : e.length ≤ n := by
          have h1 : e.length ≤ ds.length := (List.dropWhile_sublist _).length_le
          have h2 : ds.length < d.length := by rw [hdc]; simp
          omega
        have hsd : splitWhitespaceAlt (a :: ds) = splitWhitespaceAlt e := by
          rw [splitWhitespaceAlt, if_pos ha, he]
          exact (splitWhitespaceAlt_dropWhile ds).symm
        have hcd : collapseRunsAlt (a :: ds) = ' ' :: collapseRunsAlt e := by
          rw [collapseRunsAlt, if_pos ha, he]
        rw [hsd, hcd]
        cases hec : e with
        | nil =>
          have h1 : splitWhitespaceAlt ([] : List Char) = [] := by simp [splitWhitespaceAlt]
          have h2 : collapseRunsAlt ([] : List Char) = [] := by simp [collapseRunsAlt]
          rw [h1, h2]
          have h3 : trimEnd [' '] = [] := by decide
          rw [h3, List.append_nil]
          rfl
        | cons b es =>
          rw [← hec]
          have hb : b.isWhitespace = false :=
            dropWhile_head?_false (fun x => x.isWhitespace) ds b
              (by rw [← he, hec]; rfl)
          have hse : splitWhitespaceAlt e =
              (b :: es.takeWhile (fun x => !x.isWhitespace)) ::
                splitWhitespaceAlt (es.dropWhile (fun x => !x.isWhitespace)) := by
            rw [hec, splitWhitespaceAlt, if_neg (by simp [hb])]
          have hihe : joinSpace (splitWhitespaceAlt e) = trimEnd (collapseRunsAlt e) := by
            refine ih e helen ?_
            intro x hx
            rw [hec] at hx
            obtain rfl : b = x := by simpa using hx
            exact hb
          have hce : collapseRunsAlt e = b :: collapseRunsAlt es := by
            rw [hec, collapseRunsAlt, if_neg (by simp [hb])]
          have hne : trimEnd (collapseRunsAlt e) ≠ [] := by
            rw [hce]
            exact trimEnd_cons_nonws_ne b _ hb
          rw [trimEnd_cons_space _ hne, ← hihe, hse]
          show w ++ ' ' :: joinSpace _ = w ++ ' ' :: joinSpace _
          rfl

theorem joinSpace_splitWhitespaceAlt_eq (l : List Char) :
    joinSpace (splitWhitespaceAlt l) = trimWs (collapseRunsAlt l) := by
  unfold trimWs
  rw [trimStart_collapseRunsAlt]
  rw [← splitWhitespaceAlt_dropWhile l]
  exact joinSpace_words_eq_trimEnd_collapse (l.dropWhile fun c => c.isWhitespace).length
    _ le_rfl (dropWhile_head?_false _ l)

theorem splitWhitespaceAux_eq :
    ∀ (l acc : List Char),
      splitWhitespaceAux l acc =
        if acc.isEmpty then splitWhitespaceAlt l
        else (acc.reverse ++ l.takeWhile fun x => !x.isWhitespace) ::
          splitWhitespaceAlt (l.dropWhile fun x => !x.isWhitespace) := by
  intro l
  induction l with
  | nil =>
    intro acc
    cases acc with
    | nil => simp [splitWhitespaceAux, splitWhitespaceAlt]
    | cons a as => simp [splitWhitespaceAux, splitWhitespaceAlt]
  | cons c cs ih =>
    intro acc
    by_cases hc : c.isWhitespace
    · have h2 : splitWhitespaceAlt (c :: cs) = splitWhitespaceAlt cs := by
        rw [splitWhitespaceAlt, if_pos hc]
      have htk : (c :: cs).takeWhile (fun x => !x.isWhitespace) = [] := by
        simp [List.takeWhile_cons, hc]
      have hdr : (c :: cs).dropWhile (fun x => !x.isWhitespace) = c :: cs := by
        simp [List.dropWhile_cons, hc]
      cases acc with
      | nil =>
        have h1 : splitWhitespaceAux (c :: cs) ([] : List Char) =
            splitWhitespaceAux cs [] := by
          simp [splitWhitespaceAux, hc]
        rw [h1, ih [], h2]
        simp
      | cons a as =>
        have h1 : splitWhitespaceAux (c :: cs) (a :: as) =
            (a :: as).reverse :: splitWhitespaceAux cs [] := by
          simp [splitWhitespaceAux, hc]
        rw [h1, ih [], htk, hdr]
        simp [h2]
    · have hc' : c.isWhitespace = false := by simpa using hc
      have h1 : splitWhitespaceAux (c :: cs) acc = splitWhitespaceAux cs (c :: acc) := by
        simp [splitWhitespaceAux, hc']
      have htk : (c :: cs).takeWhile (fun x => !x.isWhitespace) =
          c :: cs.takeWhile (fun x => !x.isWhitespace) := by
        simp [List.takeWhile_cons, hc']
      have hdr : (c :: cs).dropWhile (fun x => !x.isWhitespace) =
          cs.dropWhile (fun x => !x.isWhitespace) := by
        simp [List.dropWhile_cons, hc']
      have hAlt : splitWhitespaceAlt (c :: cs) =
          (c :: cs.takeWhile fun x => !x.isWhitespace) ::
            splitWhitespaceAlt (cs.dropWhile fun x => !x.isWhitespace) := by
        rw [splitWhitespaceAlt, if_neg (by simp [hc'])]
      rw [h1, ih (c :: acc), htk, hdr, hAlt]
      cases acc with
      | nil => simp
      | cons a as => simp [List.append_assoc]

theorem splitWhitespace_eq_alt (l : List Char) :
    splitWhitespace l = splitWhitespaceAlt l := by
  unfold splitWhitespace
  rw [splitWhitespaceAux_eq]
  simp

theorem collapseRuns_cons_nonws (c : Char) (cs : List Char)
    (hc : c.isWhitespace = false) :
    collapseRuns (c :: cs) = c :: collapseRuns cs := by
  cases cs with
  | nil => simp [collapseRuns, hc]
  | cons c2 cs' => simp [collapseRuns, hc]

theorem collapseRuns_cons_ws :
    ∀ (cs : List Char) (c : Char), c.isWhitespace = true →
      collapseRuns (c :: cs) =
        ' ' :: collapseRuns (cs.dropWhile fun x => x.isWhitespace) := by
  intro cs
  induction cs with
  | nil => intro c hc; simp [collapseRuns, hc]
  | cons c2 cs' ih =>
    intro c hc
    by_cases h2 : c2.isWhitespace
    · rw [List.dropWhile_cons_of_pos h2]
      rw [show collapseRuns (c :: c2 :: cs') = collapseRuns (c2 :: cs') by
        simp [collapseRuns, hc, h2]]
      exact ih c2 h2
    · have h2' : c2.isWhitespace = false := by simpa using h2
      rw [List.dropWhile_cons_of_neg (by simp [h2'])]
      simp [collapseRuns, hc, h2']

theorem collapseRuns_eq_alt :
    ∀ (n : Nat) (l : List Char), l.length ≤ n →
      collapseRuns l = collapseRunsAlt l := by
  intro n
  induction n with
  | zero =>
    intro l hl
    obtain rfl : l = [] := List.eq_nil_of_length_eq_zero (Nat.le_zero.mp hl)
    simp [collapseRuns, collapseRunsAlt]
  | succ n ih =>
    intro l hl
    cases l with
    | nil => simp [collapseRuns, collapseRunsAlt]
    | cons c cs =>
      have hcs : cs.length ≤ n := by simpa [List.length_cons] using hl
      by_cases hc : c.isWhitespace
      · rw [collapseRuns_cons_ws cs c hc, collapseRunsAlt, if_pos hc]
        have hd : (cs.dropWhile fun x => x.isWhitespace).length ≤ n := by
          have := (List.dropWhile_sublist (fun x : Char => x.isWhitespace)
            (l := cs)).length_le
          omega
        rw [ih _ hd]
      · have hc' : c.isWhitespace = false := by simpa using hc
        rw [collapseRuns_cons_nonws c cs hc', collapseRunsAlt, if_neg (by simp [hc'])]
        rw [ih cs hcs]

theorem sanitize_eq_spec_amended (l : List Char) :
    sanitize l = sanitizeSpecAmended l := by
  unfold sanitize sanitizeSpecAmended
  rw [splitWhitespace_eq_alt, joinSpace_splitWhitespaceAlt_eq,
    collapseRuns_eq_alt (l.map sanitizeMap).length _ le_rfl]

theorem splitWhitespaceAlt_words_nonws :
    ∀ (n : Nat) (l : List Char), l.length ≤ n →
      ∀ w ∈ splitWhitespaceAlt l, w ≠ [] ∧ ∀ c ∈ w, c.isWhitespace = false := by
  intro n
  induction n with
  | zero =>
    intro l hl
    obtain rfl : l = [] := List.eq_nil_of_length_eq_zero (Nat.le_zero.mp hl)
    simp [splitWhitespaceAlt]
  | succ n ih =>
    intro l hl
    cases l with
    | nil => simp [splitWhitespaceAlt]
    | cons c cs =>
      have hcs : cs.length ≤ n := by simpa [List.length_cons] using hl
      by_cases hc : c.isWhitespace
      · rw [splitWhitespaceAlt, if_pos hc]
        exact ih cs hcs
      · have hc' : c.isWhitespace = false := by simpa using hc
        rw [splitWhitespaceAlt, if_neg (by simp [hc'])]
        intro w hw
        rcases List.mem_cons.mp hw with rfl | hw
        · refine ⟨List.cons_ne_nil _ _, ?_⟩
          intro x hx
          rcases List.mem_cons.mp hx with rfl | hx
          · exact hc'
          · simpa using List.mem_takeWhile_imp hx
        · have hdl : (cs.dropWhile fun x => !x.isWhitespace).length ≤ n := by
            have := (List.dropWhile_sublist (fun x => !x.isWhitespace) (l := cs)).length_le
            omega
          exact ih _ hdl w hw

theorem joinSpace_ne_nil (w : List Char) (S : List (List Char)) (hw : w ≠ []) :
    joinSpace (w :: S) ≠ [] := by
  cases S with
  | nil => exact hw
  | cons v S =>
    show w ++ ' ' :: joinSpace (v :: S) ≠ []
    exact List.append_ne_nil_of_right_ne_nil w (List.cons_ne_nil _ _)

theorem joinSpace_head_nonws (S : List (List Char))
    (hS : ∀ w ∈ S, w ≠ [] ∧ ∀ c ∈ w, c.isWhitespace = false) :
    ∀ c, (joinSpace S).head? = some c → c.isWhitespace = false := by
  intro c hc
  cases S with
  | nil => simp [joinSpace] at hc
  | cons w S =>
    have hw := hS w (List.mem_cons_self w S)
    cases hwc : w with
    | nil => exact absurd hwc hw.1
    | cons a w' =>
      have hac : a = c := by
        cases S with
        | nil =>
          rw [hwc] at hc
          exact Option.some.inj hc
        | cons v S' =>
          rw [hwc] at hc
          exact Option.some.inj hc
      subst hac
      exact hw.2 a (by rw [hwc]; exact List.mem_cons_self a w')

theorem joinSpace_getLast_nonws :
    ∀ (S : List (List Char)),
      (∀ w ∈ S, w ≠ [] ∧ ∀ c ∈ w, c.isWhitespace = false) →
      ∀ c, (joinSpace S).getLast? = some c → c.isWhitespace = false := by
  intro S
  induction S with
  | nil =>
    intro _ c hc
    simp [joinSpace] at hc
  | cons w S ih =>
    intro hS c hc
    cases S with
    | nil =>
      have hw := hS w (List.mem_cons_self w [])
      have : c ∈ w := by
        rw [List.getLast?_eq_head?_reverse] at hc
        exact List.mem_reverse.mp (List.mem_of_mem_head? hc)
      exact hw.2 c this
    | cons v S' =>
      have hv := hS v (List.mem_cons_of_mem w (List.mem_cons_self v S'))
      have hJ : joinSpace (v :: S') ≠ [] := joinSpace_ne_nil v S' hv.1
      have hstep : (joinSpace (w :: v :: S')).getLast? = (joinSpace (v :: S')).getLast? := by
        show (w ++ ' ' :: joinSpace (v :: S')).getLast? = _
        rw [List.getLast?_append]
        cases hjc : joinSpace (v :: S') with
        | nil => exact absurd hjc hJ
        | cons x xs =>
          obtain ⟨y, hy⟩ := Option.isSome_iff_exists.mp
            (List.getLast?_isSome.mpr (List.cons_ne_nil x xs))
          rw [List.getLast?_cons_cons, hy]
          rfl
      rw [hstep] at hc
      exact ih (fun u hu => hS u (List.mem_cons_of_mem w hu)) c hc

theorem splitWhitespaceAlt_all_ws (l : List Char)
    (h : ∀ c ∈ l, c.isWhitespace = true) : splitWhitespaceAlt l = [] := by
  induction l with
  | nil => simp [splitWhitespaceAlt]
  | cons c cs ih =>
    rw [splitWhitespaceAlt, if_pos (h c (List.mem_cons_self c cs))]
    exact ih fun x hx => h x (List.mem_cons_of_mem c hx)

theorem sanitize_cons_space (l : List Char) : sanitize (' ' :: l) = sanitize l := by
  unfold sanitize splitWhitespace
  rw [List.map_cons]
  have h : sanitizeMap ' ' = ' ' := by decide
  rw [h]
  rw [show splitWhitespaceAux (' ' :: l.map sanitizeMap) [] =
    splitWhitespaceAux (l.map sanitizeMap) [] from by simp [splitWhitespaceAux]]

theorem assignedSequences_get :
    ∀ (fs : List FileOutcome) (s i : Nat), FileOutcome.renameErr ∉ fs →
      ∀ (h : i < fs.length) (h' : i < (assignedSequences fs s).length),
        (assignedSequences fs s).get ⟨i, h'⟩ =
          if fs.get ⟨i, h⟩ = FileOutcome.renamed
          then some (s + (fs.take i).count FileOutcome.renamed)
          else none := by
  intro fs
  induction fs with
  | nil => intro s i _ h; exact absurd h (by simp)
  | cons f fs ih =>
    intro s i hmem h h'
    have hf : f ≠ FileOutcome.renameErr := fun hf => hmem (hf ▸ List.mem_cons_self f fs)
    have hmem' : FileOutcome.renameErr ∉ fs := fun hm => hmem (List.mem_cons_of_mem f hm)
    cases i with
    | zero =>
      cases f <;> simp_all [assignedSequences, List.count_cons]
    | succ i =>
      have hi : i < fs.length := by simpa [List.length_cons] using h
      have hcount : ((f :: fs).take (i + 1)).count FileOutcome.renamed =
          (fs.take i).count FileOutcome.renamed +
            (if f = FileOutcome.renamed then 1 else 0) := by
        rw [List.take_succ_cons, List.count_cons]
        by_cases hfr : f = FileOutcome.renamed
        · simp [hfr]
        · simp [beq_iff_eq, hfr]
      cases f with
      | renamed =>
        have h'' : i < (assignedSequences fs (s + 1)).length := by
          have : assignedSequences (FileOutcome.renamed :: fs) s =
              some s :: assignedSequences fs (s + 1) := rfl
          rw [this] at h'
          simpa using h'
        have := ih (s + 1) i hmem' hi h''
        simp only [assignedSequences, List.get_cons_succ, List.take_succ_cons,
          List.get_cons_succ] at *
        rw [this, hcount]
        have harith : s + 1 + (fs.take i).count FileOutcome.renamed =
            s + ((fs.take i).count FileOutcome.renamed + 1) := by omega
        split <;> simp_all
      | renameErr => exact absurd rfl hf
      | notJpeg =>
        have h'' : i < (assignedSequences fs s).length := by
          have : assignedSequences (FileOutcome.notJpeg :: fs) s =
              none :: assignedSequences fs s := rfl
          rw [this] at h'
          simpa using h'
        have := ih s i hmem' hi h''
        simp only [assignedSequences, List.get_cons_succ, List.take_succ_cons,
          List.get_cons_succ] at *
        rw [this, hcount]
        simp_all
      | noMetadata =>
        have h'' : i < (assignedSequences fs s).length := by
          have : assignedSequences (FileOutcome.noMetadata :: fs) s =
              none :: assignedSequences fs s := rfl
          rw [this] at h'
          simpa using h'
        have := ih s i hmem' hi h''
        simp only [assignedSequences, List.get_cons_succ, List.take_succ_cons,
          List.get_cons_succ] at *
        rw [this, hcount]
        simp_all
      | lookupErr =>
        have h'' : i < (assignedSequences fs s).length := by
          have : assignedSequences (FileOutcome.lookupErr :: fs) s =
              none :: assignedSequences fs s := rfl
          rw [this] at h'
          simpa using h'
        have := ih s i hmem' hi h''
        simp only [assignedSequences, List.get_cons_succ, List.take_succ_cons,
          List.get_cons_succ] at *
        rw [this, hcount]
        simp_all

theorem extractMetadata_some (lat : ExifValue) (latRef : String) (lon : ExifValue)
    (lonRef : String) (dto dt : Option String) (qla qlo : ℚ) (d : String)
    (h1 : toDecimal lat = some qla) (h2 : toDecimal lon = some qlo)
    (h3 : normalizeDate dto dt = some d) :
    extractMetadata ⟨some lat, some latRef, some lon, some lonRef, dto, dt⟩ =
      some (applyLatRef latRef qla, applyLonRef lonRef qlo, d) := by
  unfold extractMetadata
  simp [h1, h2, h3]

theorem toDecimal_nonneg (v : ExifValue) (q : ℚ) (h : toDecimal v = some q) :
    0 ≤ q := by
  cases v with
  | other => simp [toDecimal] at h
  | rational l =>
    match l, h with
    | d :: m :: s :: rest, h =>
      obtain rfl : d.toRat + m.toRat / 60 + s.toRat / 3600 = q := by
        simpa [toDecimal] using h
      have hd : (0 : ℚ) ≤ d.toRat := by
        unfold URational.toRat
        positivity
      have hm : (0 : ℚ) ≤ m.toRat := by
        unfold URational.toRat
        positivity
      have hs : (0 : ℚ) ≤ s.toRat := by
        unfold URational.toRat
        positivity
      positivity

/-! Claim theorems. -/

/-- Claim C1 (counterexample): on the spec's end-to-end scenario the code
produces `20240115_1_FR, Paris.jpg` — the separator before the sanitized
location is a comma and a space, not the underscore the claim states, so
the composed name differs from `20240115_1_FR_Paris.jpg`. -/
theorem c1_counterexample :
    newName "20240115" 1
        ⟨"Paris, France",
          ⟨none, none, some "Paris", none, none, some "France", some "fr"⟩⟩ "jpg" =
      "20240115_1_FR, Paris.jpg" ∧
    newName "20240115" 1
        ⟨"Paris, France",
          ⟨none, none, some "Paris", none, none, some "France", some "fr"⟩⟩ "jpg" ≠
      "20240115_1_FR_Paris.jpg" := by
  constructor
  · decide
  · decide

/-- Claim C1 (amended): for every file reaching the rename step, the new
filename is exactly `{date}_{sequence}_{COUNTRYCODE}, {sanitized location}.{ext}`
— date key, sequence number and uppercased country code separated by single
underscores, the sanitized location preceded by a comma and a space, then a
dot and the original extension. -/
theorem c1_filename_scheme (date : String) (sequence : Nat)
    (r : GeocodeResponse) (extension : String) :
    newName date sequence r extension = newNameSpec date sequence r extension := by
  unfold newName newNameSpec
  rw [countryCodeSlot_eq_spec, locationOf_eq_spec]
  unfold sanitizeStr
  rw [sanitize_eq_spec_amended]

/-- Claim C2 (counterexample): with `country_code` absent, the composed
country-code slot is not the lowercase token `"unknown"` (it is
`"UNKNOWN"`: the default token is passed through the uppercasing too). -/
theorem c2_counterexample :
    countryCodeSlot ⟨none, none, none, none, none, none, none⟩ ≠ "unknown" ∧
    countryCodeSlot ⟨none, none, none, none, none, none, none⟩ = "UNKNOWN" := by
  constructor
  · decide
  · decide

/-- Claim C2 (amended): the country-code slot is the response's
`country_code` rendered uppercase when present, and the uppercase token
`"UNKNOWN"` when absent. -/
theorem c2_country_code_slot (a : Address) :
    (∀ s, a.country_code = some s → countryCodeSlot a = toUpperStr s) ∧
    (a.country_code = none → countryCodeSlot a = "UNKNOWN") := by
  constructor
  · intro s hs
    simp [countryCodeSlot, hs]
  · intro h
    simp only [countryCodeSlot, h, Option.getD_none]
    decide

/-- Witness for C2: a present code `"fr"` yields its uppercasing and an
absent code yields `"UNKNOWN"`. -/
theorem c2_witness :
    countryCodeSlot ⟨none, none, none, none, none, none, some "fr"⟩ = toUpperStr "fr" ∧
    countryCodeSlot ⟨none, none, none, none, none, none, none⟩ = "UNKNOWN" :=
  ⟨(c2_country_code_slot ⟨none, none, none, none, none, none, some "fr"⟩).1 "fr" rfl,
   (c2_country_code_slot ⟨none, none, none, none, none, none, none⟩).2 rfl⟩

/-- Claim C3: the derived location text follows the priority policy —
place name is town, else city, else village (never state); a road is
appended after the place name joined with `", "`; with no place name and
no road, a present country is used alone; otherwise `display_name` is
used verbatim. -/
theorem c3_location_policy (r : GeocodeResponse) : locationOf r = locationSpec r :=
  locationOf_eq_spec r

/-- Claim C4: the sequence counter starts at 1 and is incremented exactly
once per completed rename; skipped files (ineligible, missing metadata,
failed lookup) do not consume a sequence number, so with outcomes
`[renamed, lookupErr, renamed]` the files receive sequences 1, —, 2. -/
theorem c4_sequence_counter :
    mainSequences [FileOutcome.renamed, FileOutcome.lookupErr, FileOutcome.renamed] =
      [some 1, none, some 2] ∧
    ∀ (fs : List FileOutcome), FileOutcome.renameErr ∉ fs →
      ∀ (i : Nat) (h : i < fs.length) (h' : i < (mainSequences fs).length),
        (mainSequences fs).get ⟨i, h'⟩ =
          if fs.get ⟨i, h⟩ = FileOutcome.renamed
          then some (1 + (fs.take i).count FileOutcome.renamed)
          else none := by
  constructor
  · decide
  · intro fs hmem i h h'
    exact assignedSequences_get fs 1 i hmem h h'

/-- Witness for C4: in the three-file scenario the third file gets the
sequence number dictated by the counting rule (namely 2). -/
theorem c4_witness :
    (mainSequences [FileOutcome.renamed, FileOutcome.lookupErr, FileOutcome.renamed]).get
        ⟨2, by decide⟩ =
      if [FileOutcome.renamed, FileOutcome.lookupErr, FileOutcome.renamed].get
          ⟨2, by decide⟩ = FileOutcome.renamed
      then some (1 +
        ([FileOutcome.renamed, FileOutcome.lookupErr, FileOutcome.renamed].take 2).count
          FileOutcome.renamed)
      else none :=
  c4_sequence_counter.2
    [FileOutcome.renamed, FileOutcome.lookupErr, FileOutcome.renamed]
    (by decide) 2 (by decide) (by decide)

/-- Claim C5: date normalization takes `DateTimeOriginal`, falling back to
`DateTime`; it returns the first 8 digit characters of the chosen field's
text in order with non-digits removed, and fails exactly when the chosen
text has fewer than 8 digit characters or neither field exists; no
calendar validation is performed. -/
theorem c5_date_normalization (dto dt : Option String) :
    normalizeDate none none = none ∧
    ∀ s : String, (dto = some s ∨ (dto = none ∧ dt = some s)) →
      ((8 ≤ (s.data.filter fun c => c.isDigit).length →
          normalizeDate dto dt =
            some (String.mk ((s.data.filter fun c => c.isDigit).take 8))) ∧
       ((s.data.filter fun c => c.isDigit).length < 8 →
          normalizeDate dto dt = none)) := by
  refine ⟨rfl, ?_⟩
  intro s hs
  have hchosen : dto.or dt = some s := by
    rcases hs with h | ⟨h1, h2⟩
    · rw [h]; rfl
    · rw [h1, h2]; rfl
  have hval : normalizeDate dto dt =
      if ((s.data.filter fun c => c.isDigit).take 8).length = 8
      then some (String.mk ((s.data.filter fun c => c.isDigit).take 8))
      else none := by
    unfold normalizeDate
    rw [hchosen]
  constructor
  · intro hlen
    rw [hval, if_pos (by rw [List.length_take]; omega)]
  · intro hlen
    rw [hval, if_neg (by rw [List.length_take]; omega)]

/-- Witness for C5: `"2023:10:24 12:00:00"` normalizes to `"20231024"`,
and `"23:1:2"` (fewer than 8 digits) fails. -/
theorem c5_witness :
    normalizeDate (some "2023:10:24 12:00:00") none = some "20231024" ∧
    normalizeDate (some "23:1:2") none = none := by
  constructor
  · have h := ((c5_date_normalization (some "2023:10:24 12:00:00") none).2
      "2023:10:24 12:00:00" (Or.inl rfl)).1 (by decide)
    rw [h]
    decide
  · exact ((c5_date_normalization (some "23:1:2") none).2
      "23:1:2" (Or.inl rfl)).2 (by decide)

/-- Claim C6 (counterexample): the all-zero DMS triple is a valid rational
triple, yet under a reference containing 'S' the decoded coordinate is 0,
which is not negative — the claim's "negative under a South/West
reference" fails at the zero coordinate. -/
theorem c6_counterexample :
    toDecimal (ExifValue.rational [⟨0, 1⟩, ⟨0, 1⟩, ⟨0, 1⟩]) = some 0 ∧
    applyLatRef "S" 0 = 0 ∧ ¬ applyLatRef "S" 0 < 0 := by
  refine ⟨?_, ?_, ?_⟩
  · simp [toDecimal, URational.toRat]
  · simp [applyLatRef]
  · simp [applyLatRef]

/-- Claim C6 (amended): for every DMS rational triple with nonzero
denominators and hemisphere reference, the decoded value is exactly
`degrees + minutes/60 + seconds/3600` (in exact rational arithmetic) and
is non-negative; it is negated exactly when the reference's text contains
'S' (latitude) resp. 'W' (longitude), so under a South/West reference the
result is non-positive — and strictly negative whenever the magnitude is
nonzero — while under any other reference it equals the magnitude and is
non-negative. -/
theorem c6_coordinate_sign (d m s : URational) (rest : List URational) (ref : String)
    (hd : d.den ≠ 0) (hm : m.den ≠ 0) (hs : s.den ≠ 0) :
    ∃ q : ℚ, toDecimal (ExifValue.rational (d :: m :: s :: rest)) = some q ∧
      q = d.toRat + m.toRat / 60 + s.toRat / 3600 ∧ 0 ≤ q ∧
      (ref.data.contains 'S' = true → applyLatRef ref q = -q ∧
        applyLatRef ref q ≤ 0 ∧ (0 < q → applyLatRef ref q < 0)) ∧
      (ref.data.contains 'S' = false → applyLatRef ref q = q ∧ 0 ≤ applyLatRef ref q) ∧
      (ref.data.contains 'W' = true → applyLonRef ref q = -q ∧
        applyLonRef ref q ≤ 0 ∧ (0 < q → applyLonRef ref q < 0)) ∧
      (ref.data.contains 'W' = false → applyLonRef ref q = q ∧ 0 ≤ applyLonRef ref q) := by
  have hq : toDecimal (ExifValue.rational (d :: m :: s :: rest)) =
      some (d.toRat + m.toRat / 60 + s.toRat / 3600) := rfl
  have h0 : 0 ≤ d.toRat + m.toRat / 60 + s.toRat / 3600 := toDecimal_nonneg _ _ hq
  refine ⟨_, hq, rfl, h0, ?_, ?_, ?_, ?_⟩
  · intro h
    have key : applyLatRef ref (d.toRat + m.toRat / 60 + s.toRat / 3600) =
        -(d.toRat + m.toRat / 60 + s.toRat / 3600) := by
      unfold applyLatRef
      rw [h]
      simp
    exact ⟨key, by rw [key]; linarith, fun h0q => by rw [key]; linarith⟩
  · intro h
    have key : applyLatRef ref (d.toRat + m.toRat / 60 + s.toRat / 3600) =
        d.toRat + m.toRat / 60 + s.toRat / 3600 := by
      unfold applyLatRef
      rw [h]
      simp
    exact ⟨key, by rw [key]; exact h0⟩
  · intro h
    have key : applyLonRef ref (d.toRat + m.toRat / 60 + s.toRat / 3600) =
        -(d.toRat + m.toRat / 60 + s.toRat / 3600) := by
      unfold applyLonRef
      rw [h]
      simp
    exact ⟨key, by rw [key]; linarith, fun h0q => by rw [key]; linarith⟩
  · intro h
    have key : applyLonRef ref (d.toRat + m.toRat / 60 + s.toRat / 3600) =
        d.toRat + m.toRat / 60 + s.toRat / 3600 := by
      unfold applyLonRef
      rw [h]
      simp
    exact ⟨key, by rw [key]; exact h0⟩

/-- Witness for C6: the triple 48° 30' 0" with reference "S". -/
theorem c6_witness :
    ∃ q : ℚ,
      toDecimal (ExifValue.rational
        (⟨48, 1⟩ :: ⟨30, 1⟩ :: ⟨0, 1⟩ :: ([] : List URational))) = some q ∧
      q = URational.toRat ⟨48, 1⟩ + URational.toRat ⟨30, 1⟩ / 60 +
        URational.toRat ⟨0, 1⟩ / 3600 ∧ 0 ≤ q ∧
      (("S").data.contains 'S' = true → applyLatRef "S" q = -q ∧
        applyLatRef "S" q ≤ 0 ∧ (0 < q → applyLatRef "S" q < 0)) ∧
      (("S").data.contains 'S' = false →
        applyLatRef "S" q = q ∧ 0 ≤ applyLatRef "S" q) ∧
      (("S").data.contains 'W' = true → applyLonRef "S" q = -q ∧
        applyLonRef "S" q ≤ 0 ∧ (0 < q → applyLonRef "S" q < 0)) ∧
      (("S").data.contains 'W' = false →
        applyLonRef "S" q = q ∧ 0 ≤ applyLonRef "S" q) :=
  c6_coordinate_sign ⟨48, 1⟩ ⟨30, 1⟩ ⟨0, 1⟩ [] "S"
    (by decide) (by decide) (by decide)

/-- Claim C7: coordinate extraction is partial-safe — whenever any of the
four GPS fields is absent, or a present GPS value is not a rational
sequence of at least 3 components (i.e. `to_decimal` rejects it),
extraction returns the "no coordinates" outcome `none`, never a panic and
never a silent zero coordinate. -/
theorem c7_partial_safety (e : ExifData)
    (h : e.gpsLatitude = none ∨ e.gpsLatitudeRef = none ∨ e.gpsLongitude = none ∨
      e.gpsLongitudeRef = none ∨
      (∃ v, e.gpsLatitude = some v ∧ toDecimal v = none) ∨
      (∃ v, e.gpsLongitude = some v ∧ toDecimal v = none)) :
    extractMetadata e = none := by
  obtain ⟨glat, glatRef, glon, glonRef, dto, dt⟩ := e
  cases glat with
  | none => rfl
  | some lat =>
    cases glatRef with
    | none => rfl
    | some latRef =>
      cases glon with
      | none => rfl
      | some lon =>
        cases glonRef with
        | none => rfl
        | some lonRef =>
          rcases h with h | h | h | h | ⟨v, hv, hvd⟩ | ⟨v, hv, hvd⟩
          · exact absurd h (by simp)
          · exact absurd h (by simp)
          · exact absurd h (by simp)
          · exact absurd h (by simp)
          · obtain rfl : lat = v := by simpa using hv
            unfold extractMetadata
            simp [hvd]
          · obtain rfl : lon = v := by simpa using hv
            unfold extractMetadata
            simp [hvd]

/-- Witness for C7: an input with every field absent extracts to `none`. -/
theorem c7_witness :
    extractMetadata ⟨none, none, none, none, none, none⟩ = none :=
  c7_partial_safety ⟨none, none, none, none, none, none⟩ (Or.inl rfl)

/-- Claim C8 (counterexample): the claim's own sanitizer (collapse every
whitespace run to a single space, single spaces pass through) disagrees
with the code on an input with a leading space — the code deletes it. -/
theorem c8_counterexample :
    sanitize [' ', 'a'] ≠ sanitizeSpecLiteral [' ', 'a'] ∧
    sanitize [' ', 'a'] = ['a'] ∧ sanitizeSpecLiteral [' ', 'a'] = [' ', 'a'] := by
  refine ⟨?_, ?_, ?_⟩
  · decide
  · decide
  · decide

/-- Claim C8 (amended): sanitization replaces each character that is not
alphanumeric, a space or a comma with an underscore, collapses every
interior whitespace run to a single space, and deletes leading and
trailing whitespace runs entirely. -/
theorem c8_sanitization (l : List Char) : sanitize l = sanitizeSpecAmended l :=
  sanitize_eq_spec_amended l

/-- Claim C9 (counterexample): a rational triple denoting 1000° passes
every shape check, so extraction produces latitude 1000 ∉ [-90, 90]: the
decoder applies no range validation. -/
theorem c9_counterexample :
    extractMetadata
        ⟨some (ExifValue.rational [⟨1000, 1⟩, ⟨0, 1⟩, ⟨0, 1⟩]), some "N",
          some (ExifValue.rational [⟨0, 1⟩, ⟨0, 1⟩, ⟨0, 1⟩]), some "E",
          some "2024:01:15 10:00:00", none⟩ =
      some (1000, 0, "20240115") ∧
    ¬ ((-90 ≤ (1000 : ℚ) ∧ (1000 : ℚ) ≤ 90)) := by
  constructor
  · have h1 : toDecimal (ExifValue.rational [⟨1000, 1⟩, ⟨0, 1⟩, ⟨0, 1⟩]) =
        some 1000 := by
      simp [toDecimal, URational.toRat]
    have h2 : toDecimal (ExifValue.rational [⟨0, 1⟩, ⟨0, 1⟩, ⟨0, 1⟩]) = some 0 := by
      simp [toDecimal, URational.toRat]
    have h3 : normalizeDate (some "2024:01:15 10:00:00") none = some "20240115" := by
      decide
    rw [extractMetadata_some _ _ _ _ _ _ _ _ _ h1 h2 h3]
    have hn : ("N".data.contains 'S') = false := by decide
    have he : ("E".data.contains 'W') = false := by decide
    simp [applyLatRef, applyLonRef, hn, he]
  · intro h
    have := h.2
    norm_num at this

/-- Claim C9 (amended): extraction passes the decoded DMS magnitude
through unvalidated — a produced coordinate satisfies the data-model
range invariant exactly when the raw magnitude `deg + min/60 + sec/3600`
is within the bound (90 for latitude, 180 for longitude); the sign encodes
the hemisphere. -/
theorem c9_range_invariant (e : ExifData) (la lo : ℚ) (d : String)
    (h : extractMetadata e = some (la, lo, d)) :
    ∃ qla qlo : ℚ,
      e.gpsLatitude.bind toDecimal = some qla ∧
      e.gpsLongitude.bind toDecimal = some qlo ∧
      0 ≤ qla ∧ 0 ≤ qlo ∧
      (la = qla ∨ la = -qla) ∧ (lo = qlo ∨ lo = -qlo) ∧
      ((-90 ≤ la ∧ la ≤ 90) ↔ qla ≤ 90) ∧
      ((-180 ≤ lo ∧ lo ≤ 180) ↔ qlo ≤ 180) := by
  obtain ⟨glat, glatRef, glon, glonRef, dto, dt⟩ := e
  cases glat with
  | none => exact absurd h (by intro hc; exact Option.noConfusion hc)
  | some lat =>
  cases glatRef with
  | none => exact absurd h (by intro hc; exact Option.noConfusion hc)
  | some latRef =>
  cases glon with
  | none => exact absurd h (by intro hc; exact Option.noConfusion hc)
  | some lon =>
  cases glonRef with
  | none => exact absurd h (by intro hc; exact Option.noConfusion hc)
  | some lonRef =>
  simp only [extractMetadata] at h
  cases htd1 : toDecimal lat with
  | none => rw [htd1] at h; simp at h
  | some qla =>
  cases htd2 : toDecimal lon with
  | none => rw [htd1, htd2] at h; simp at h
  | some qlo =>
  cases hnd : normalizeDate dto dt with
  | none => rw [htd1, htd2, hnd] at h; simp at h
  | some d' =>
  rw [htd1, htd2, hnd] at h
  simp only [Option.some.injEq, Prod.mk.injEq] at h
  obtain ⟨hla, hlo, hd⟩ := h
  have h0la : 0 ≤ qla := toDecimal_nonneg _ _ htd1
  have h0lo : 0 ≤ qlo := toDecimal_nonneg _ _ htd2
  refine ⟨qla, qlo, by simp [htd1], by simp [htd2], h0la, h0lo, ?_, ?_, ?_, ?_⟩
  · rw [← hla]
    unfold applyLatRef
    by_cases hcS : latRef.data.contains 'S'
    · rw [if_pos hcS]; exact Or.inr rfl
    · rw [if_neg hcS]; exact Or.inl rfl
  · rw [← hlo]
    unfold applyLonRef
    by_cases hcW : lonRef.data.contains 'W'
    · rw [if_pos hcW]; exact Or.inr rfl
    · rw [if_neg hcW]; exact Or.inl rfl
  · rw [← hla]
    unfold applyLatRef
    by_cases hcS : latRef.data.contains 'S'
    · rw [if_pos hcS]
      constructor
      · intro hr; linarith [hr.1]
      · intro hr; constructor <;> linarith
    · rw [if_neg hcS]
      constructor
      · intro hr; linarith [hr.2]
      · intro hr; constructor <;> linarith
  · rw [← hlo]
    unfold applyLonRef
    by_cases hcW : lonRef.data.contains 'W'
    · rw [if_pos hcW]
      constructor
      · intro hr; linarith [hr.1]
      · intro hr; constructor <;> linarith
    · rw [if_neg hcW]
      constructor
      · intro hr; linarith [hr.2]
      · intro hr; constructor <;> linarith

/-- Witness for C9: a 10-degree south latitude (triple 10,0,0 under "S")
decodes to -10 and the range equivalence holds for it. -/
theorem c9_witness :
    ∃ qla qlo : ℚ,
      (some (ExifValue.rational [⟨10, 1⟩, ⟨0, 1⟩, ⟨0, 1⟩])).bind toDecimal = some qla ∧
      (some (ExifValue.rational [⟨0, 1⟩, ⟨0, 1⟩, ⟨0, 1⟩])).bind toDecimal = some qlo ∧
      0 ≤ qla ∧ 0 ≤ qlo ∧
      ((-10 : ℚ) = qla ∨ (-10 : ℚ) = -qla) ∧ ((0 : ℚ) = qlo ∨ (0 : ℚ) = -qlo) ∧
      ((-90 ≤ (-10 : ℚ) ∧ (-10 : ℚ) ≤ 90) ↔ qla ≤ 90) ∧
      ((-180 ≤ (0 : ℚ) ∧ (0 : ℚ) ≤ 180) ↔ qlo ≤ 180) :=
  c9_range_invariant
    ⟨some (ExifValue.rational [⟨10, 1⟩, ⟨0, 1⟩, ⟨0, 1⟩]), some "S",
      some (ExifValue.rational [⟨0, 1⟩, ⟨0, 1⟩, ⟨0, 1⟩]), some "E",
      some "2024:01:15 10:00:00", none⟩ (-10) 0 "20240115"
    (by
      have h1 : toDecimal (ExifValue.rational [⟨10, 1⟩, ⟨0, 1⟩, ⟨0, 1⟩]) =
          some 10 := by
        simp [toDecimal, URational.toRat]
      have h2 : toDecimal (ExifValue.rational [⟨0, 1⟩, ⟨0, 1⟩, ⟨0, 1⟩]) = some 0 := by
        simp [toDecimal, URational.toRat]
      have h3 : normalizeDate (some "2024:01:15 10:00:00") none = some "20240115" := by
        decide
      rw [extractMetadata_some _ _ _ _ _ _ _ _ _ h1 h2 h3]
      have hs : ("S".data.contains 'S') = true := by decide
      have he : ("E".data.contains 'W') = false := by decide
      simp [applyLatRef, applyLonRef, hs, he])

/-- Claim C10 (counterexample): an input consisting only of whitespace
does not necessarily sanitize to the empty string — a lone tab is first
replaced by an underscore, so it sanitizes to `"_"`. -/
theorem c10_counterexample :
    ('\t').isWhitespace = true ∧ sanitize ['\t'] = ['_'] ∧ sanitize ['\t'] ≠ [] := by
  refine ⟨?_, ?_, ?_⟩
  · decide
  · decide
  · decide

/-- Claim C10 (amended): the sanitizer's output never begins or ends with
whitespace; a leading space is deleted entirely, and an input consisting
only of spaces sanitizes to the empty string (other whitespace characters
have already become underscores by then). -/
theorem c10_trim_behaviour (l : List Char) (c : Char) :
    ((sanitize l).head? = some c → c.isWhitespace = false) ∧
    ((sanitize l).getLast? = some c → c.isWhitespace = false) ∧
    ((∀ x ∈ l, x = ' ') → sanitize l = []) ∧
    sanitize (' ' :: l) = sanitize l := by
  have hs : sanitize l = joinSpace (splitWhitespaceAlt (l.map sanitizeMap)) := by
    unfold sanitize
    rw [splitWhitespace_eq_alt]
  have hwords := splitWhitespaceAlt_words_nonws (l.map sanitizeMap).length
    (l.map sanitizeMap) le_rfl
  refine ⟨?_, ?_, ?_, sanitize_cons_space l⟩
  · intro hc
    rw [hs] at hc
    exact joinSpace_head_nonws _ hwords c hc
  · intro hc
    rw [hs] at hc
    exact joinSpace_getLast_nonws _ hwords c hc
  · intro hsp
    rw [hs, splitWhitespaceAlt_all_ws]
    · rfl
    · intro x hx
      obtain ⟨y, hy, rfl⟩ := List.mem_map.mp hx
      have hy' : y = ' ' := hsp y hy
      subst hy'
      decide

/-- Witness for C10: `" a"` sanitizes to `"a"` whose head 'a' is not
whitespace, and the all-space input `"  "` sanitizes to the empty list. -/
theorem c10_witness :
    ('a').isWhitespace = false ∧ sanitize [' ', ' '] = [] :=
  ⟨(c10_trim_behaviour [' ', 'a'] 'a').1 (by decide),
   (c10_trim_behaviour [' ', ' '] 'a').2.2.1 (by decide)⟩

end ImageLabeler
